import Mathlib

/-
Verification of the k2db document-store facade (src/db.ts) against its
natural-language specification.

The embedding models documents as association lists from field names to
values, mirroring JavaScript object semantics: property read returns the
value at the (unique) key, property assignment replaces the value in place
or appends a new key at the end, and object spread folds the second
object's entries into the first by assignment.  Criteria objects map field
names to constraints: a plain value constrains the field to equal it, and
a Mongo-style object written as a not-equal wrapper constrains the field
to differ from the value (a missing field satisfies a not-equal
constraint, as in MongoDB).

The store boundary (MongoDB collection) is modelled per collection as a
list of documents in insertion order, with updateMany, findOne and
insertOne given their MongoDB semantics.  Projections, sorting and
pagination are not modelled: no verified property concerns them.
-/

namespace K2

/-- Field values: the open-schema universe of string, integer and boolean
payloads.  Nested objects and arrays are not needed by any verified
property; the properties quantify over caller data at the key level. -/
inductive Value where
  | str : String → Value
  | num : Int → Value
  | bool : Bool → Value
  deriving DecidableEq, Repr

/-- Criteria constraints on one field: equality to a value (a plain value
in a Mongo filter) or difference from a value (a Mongo not-equal object,
satisfied also when the field is absent). -/
inductive CVal where
  | eqv : Value → CVal
  | ne : Value → CVal
  deriving DecidableEq, Repr

/-- A document: a JavaScript object as an association list in property
insertion order.  Objects arriving from JavaScript never repeat a key. -/
abbrev Doc := List (String × Value)

/-- A filter object: field name to constraint. -/
abbrev Criteria := List (String × CVal)

/-- Property read on a JavaScript object: value at the first occurrence of
the key, if any. -/
def lookupKey {α : Type} : List (String × α) → String → Option α
  | [], _ => none
  | kv :: rest, k => if kv.1 = k then some kv.2 else lookupKey rest k

/-- Property assignment on a JavaScript object: replace the value at the
key in place, or append the key at the end when absent. -/
def setKey {α : Type} : List (String × α) → String → α → List (String × α)
  | [], k, v => [(k, v)]
  | kv :: rest, k, v => if kv.1 = k then (k, v) :: rest else kv :: setKey rest k v

/-- Key list of an object, in insertion order. -/
def keysOf {α : Type} (l : List (String × α)) : List String := l.map Prod.fst

/-- Object spread: assign every entry of the second object into the first,
left to right, as the JavaScript spread operator does. -/
def spread {α : Type} (a b : List (String × α)) : List (String × α) :=
  b.foldl (fun acc kv => setKey acc kv.1 kv.2) a

/-- Error kinds of the k2error ServiceError taxonomy, as used by db.ts. -/
inductive ServiceError where
  | BAD_REQUEST
  | NOT_FOUND
  | ALREADY_EXISTS
  | SYSTEM_ERROR
  | CONFIGURATION_ERROR
  deriving DecidableEq, Repr

/-- Thrown error shape: kind, human-readable message, machine code. -/
structure K2Error where
  error : ServiceError
  message : String
  trace : String
  deriving DecidableEq, Repr

/-- Whether one field of a document satisfies one criteria constraint,
given the field's looked-up value (none when absent).  Equality requires
the field present and equal; not-equal is satisfied by absence or any
different value, as in MongoDB. -/
def matchCVal (ov : Option Value) : CVal → Bool
  | CVal.eqv v => ov == some v
  | CVal.ne v => !(ov == some v)

/-- Whether a document satisfies every constraint of a filter. -/
def matchesDoc (c : Criteria) (d : Doc) : Bool :=
  c.all fun kv => matchCVal (lookupKey d kv.1) kv.2

/-- Update operation handed to the store's updateMany: either a patch
wrapped in a set operator, or a plain replacement document (as db.ts
produces on its replace path). -/
inductive UpdateOp where
  | set : Doc → UpdateOp
  | replacement : Doc → UpdateOp
  deriving DecidableEq, Repr

/-- Effect of a set-operator patch on one document: every entry of the
values object is assigned into the document. -/
def applySet (values : Doc) (d : Doc) : Doc := spread d values

/-- The store's updateMany.  A set-operator patch is applied to every
matching document and the count of documents actually changed is
reported, as MongoDB reports modifiedCount.  A plain replacement document
is rejected: the MongoDB driver refuses update documents without atomic
operators (in this value universe no caller key is an atomic operator),
so the collection is left unchanged and an error is raised. -/
def updateMany (coll : List Doc) (c : Criteria) (op : UpdateOp) :
    Except K2Error (List Doc × Nat) :=
  match op with
  | UpdateOp.replacement _ =>
    Except.error
      ⟨ServiceError.SYSTEM_ERROR, "Update document requires atomic operators", "driver"⟩
  | UpdateOp.set values =>
    Except.ok
      (coll.map fun d => if matchesDoc c d then applySet values d else d,
       (coll.filter fun d => matchesDoc c d && (applySet values d ≠ d : Bool)).length)

/-- MongoDB findOne: first matching document in natural (insertion)
order. -/
def storeFindOne (coll : List Doc) (c : Criteria) : Option Doc :=
  coll.find? fun d => matchesDoc c d

/-- Stripping of the internal storage identity before returning a
document to the caller. -/
def stripId (d : Doc) : Doc := d.filter fun kv => kv.1 != "_id"

/-- Agreement of the three immutable envelope fields (identity, owner,
created-at) between a document after an operation and the same document
before it. -/
def sysEq (d' d : Doc) : Prop :=
  lookupKey d' "_uuid" = lookupKey d "_uuid"
  ∧ lookupKey d' "_owner" = lookupKey d "_owner"
  ∧ lookupKey d' "_created" = lookupKey d "_created"

instance (d' d : Doc) : Decidable (sysEq d' d) := by
  unfold sysEq; infer_instance

/-- Whether a fallible result is a success. -/
def isOk {ε α : Type} : Except ε α → Bool
  | Except.ok _ => true
  | Except.error _ => false

namespace K2DB

/-- Embeds K2DB.findOne of src/db.ts: pass the criteria through to the
store, strip the internal identity from a hit, return none on a miss.
The optional field allow-list projection is not modelled; no verified
property concerns it. -/
def findOne (coll : List Doc) (criteria : Criteria) : Except K2Error (Option Doc) :=
  Except.ok ((storeFindOne coll criteria).map stripId)

/-- Embeds K2DB.get of src/db.ts: findOne with the single-field criteria
on the identity, and an error when there is no hit.  Note the source
passes only the identity constraint: no deleted-flag constraint is
added. -/
def get (coll : List Doc) (uuid : String) : Except K2Error Doc :=
  match findOne coll [("_uuid", CVal.eqv (Value.str uuid))] with
  | Except.ok (some d) => Except.ok d
  | Except.ok none =>
    Except.error
      ⟨ServiceError.SYSTEM_ERROR, "Error getting the document with provided identity",
        "sys_mdb_get"⟩
  | Except.error e => Except.error e

/-- Caller options of K2DB.find that drive soft-delete visibility:
includeDeleted is the truthiness of params.includeDeleted, deleted is
whether params.deleted is strictly the boolean true. -/
structure FindParams where
  includeDeleted : Bool := false
  deleted : Bool := false
  deriving DecidableEq, Repr

/-- Embeds the criteria shaping of K2DB.find (src/db.ts lines 205-215):
default the filter to an empty object, then under includeDeleted leave it
alone, under params.deleted assign true into its deleted flag, and
otherwise assign the not-equal-true constraint into its deleted flag.
The assignments are JavaScript property writes into the caller's filter
object itself. -/
def findCriteria (filter : Option Criteria) (params : FindParams) : Criteria :=
  let criteria := filter.getD []
  if params.includeDeleted then criteria
  else if params.deleted then setKey criteria "_deleted" (CVal.eqv (Value.bool true))
  else setKey criteria "_deleted" (CVal.ne (Value.bool true))

/-- State of the caller's filter object after K2DB.find returns: find
mutates a non-null filter in place through the criteria alias, while a
null filter is replaced by a fresh empty object and the caller keeps
null. -/
def findFilterAfter (filter : Option Criteria) (params : FindParams) : Option Criteria :=
  match filter with
  | none => none
  | some f => some (findCriteria (some f) params)

/-- Embeds the document selection of K2DB.find: the shaped criteria are
handed to the store and matching documents come back in insertion order
with the internal identity stripped.  Projection, sort and the skip and
limit arguments are not modelled; no verified property concerns them. -/
def find (coll : List Doc) (filter : Option Criteria) (params : FindParams) : List Doc :=
  (coll.filter fun d => matchesDoc (findCriteria filter params) d).map stripId

/-- Embeds the envelope stamping of K2DB.create: spread the caller data
first, then assign the created-at and updated-at timestamps, the owner
and the generated identity, so the system fields win. -/
def createdDoc (data : Doc) (owner : String) (now : Int) (uuid : String) : Doc :=
  spread data
    [("_created", Value.num now), ("_updated", Value.num now),
     ("_owner", Value.str owner), ("_uuid", Value.str uuid)]

/-- Embeds K2DB.create: reject a falsy owner (the empty string), stamp
the envelope, and insert.  A document already carrying the generated
identity makes the store's unique index report a duplicate key, which
create maps to ALREADY_EXISTS.  The identity generator and clock are
passed as arguments. -/
def create (coll : List Doc) (owner : String) (data : Doc) (now : Int)
    (newUuid : String) : List Doc × Except K2Error String :=
  if owner = "" then
    (coll,
     Except.error
       ⟨ServiceError.BAD_REQUEST, "Invalid method usage, parameters not defined",
         "sys_mdb_crv1"⟩)
  else
    let document := createdDoc data owner now newUuid
    if coll.any fun d => lookupKey d "_uuid" == some (Value.str newUuid) then
      (coll,
       Except.error
         ⟨ServiceError.ALREADY_EXISTS, "A document with this _uuid already exists",
           "sys_mdb_crv3"⟩)
    else (coll ++ [document], Except.ok newUuid)

/-- Embeds K2DB.updateAll: stamp the call-time clock into the values
object's updated-at (overwriting any caller-supplied value), add the
not-equal-true deleted constraint to the criteria unless the criteria
already name the deleted flag, and hand either a set patch or the plain
values object to updateMany according to the replace flag.  Returns the
collection state after the call alongside the result. -/
def updateAll (coll : List Doc) (criteria : Criteria) (values : Doc) (replace : Bool)
    (now : Int) : List Doc × Except K2Error Nat :=
  let values := setKey values "_updated" (Value.num now)
  let criteria :=
    if "_deleted" ∈ keysOf criteria then criteria
    else setKey criteria "_deleted" (CVal.ne (Value.bool true))
  let op := if replace then UpdateOp.replacement values else UpdateOp.set values
  match updateMany coll criteria op with
  | Except.ok r => (r.1, Except.ok r.2)
  | Except.error _ =>
    (coll,
     Except.error ⟨ServiceError.SYSTEM_ERROR, "Error updating collection", "sys_mdb_update1"⟩)

/-- Embeds K2DB.update: stamp updated-at into the data, delegate to
updateAll with the identity criteria, then enforce exactly-one-match:
one modification succeeds, zero raises NOT_FOUND, several raise
SYSTEM_ERROR.  The catch clause rethrows K2Error values unchanged. -/
def update (coll : List Doc) (id : String) (data : Doc) (replace : Bool) (now : Int) :
    List Doc × Except K2Error Nat :=
  let data := setKey data "_updated" (Value.num now)
  let r := updateAll coll [("_uuid", CVal.eqv (Value.str id))] data replace now
  match r.2 with
  | Except.ok n =>
    if n = 1 then (r.1, Except.ok 1)
    else if n = 0 then
      (r.1,
       Except.error
         ⟨ServiceError.NOT_FOUND, "Object not found", "sys_mdb_update_not_found"⟩)
    else
      (r.1,
       Except.error
         ⟨ServiceError.SYSTEM_ERROR, "Multiple objects updated",
           "sys_mdb_update_multiple_found"⟩)
  | Except.error e => (r.1, Except.error e)

/-- Embeds K2DB.deleteAll: overwrite the criteria's deleted flag with the
not-equal-true constraint, then patch the deleted flag to true through
updateAll; any failure is re-wrapped as a SYSTEM_ERROR.  The initial
countDocuments call of the source has no observable effect and is
omitted. -/
def deleteAll (coll : List Doc) (criteria : Criteria) (now : Int) :
    List Doc × Except K2Error Nat :=
  let modifiedCriteria := setKey criteria "_deleted" (CVal.ne (Value.bool true))
  let r := updateAll coll modifiedCriteria [("_deleted", Value.bool true)] false now
  match r.2 with
  | Except.ok n => (r.1, Except.ok n)
  | Except.error _ =>
    (r.1,
     Except.error ⟨ServiceError.SYSTEM_ERROR, "Error updating collection",
       "sys_mdb_deleteall_update"⟩)

/-- Embeds K2DB.delete faithfully to its control flow: deleteAll with the
identity criteria, then exactly-one enforcement inside a try block whose
catch re-wraps EVERY error, including the NOT_FOUND and SYSTEM_ERROR the
block itself just threw, into a SYSTEM_ERROR with code
sys_mdb_remove_upd.  Unlike update and purge, this catch has no
instanceof-K2Error rethrow. -/
def delete (coll : List Doc) (id : String) (now : Int) : List Doc × Except K2Error Nat :=
  let r := deleteAll coll [("_uuid", CVal.eqv (Value.str id))] now
  let inner : Except K2Error Nat :=
    match r.2 with
    | Except.error e => Except.error e
    | Except.ok n =>
      if n = 1 then Except.ok 1
      else if n = 0 then
        Except.error
          ⟨ServiceError.NOT_FOUND, "Document not found", "sys_mdb_remove_not_found"⟩
      else
        Except.error
          ⟨ServiceError.SYSTEM_ERROR,
            "Multiple documents deleted when only one was expected",
            "sys_mdb_remove_multiple_deleted"⟩
  match inner with
  | Except.ok n => (r.1, Except.ok n)
  | Except.error _ =>
    (r.1,
     Except.error
       ⟨ServiceError.SYSTEM_ERROR, "Error removing object from collection",
         "sys_mdb_remove_upd"⟩)

/-- Embeds K2DB.restore: assign true into the criteria's deleted flag
(overwriting any caller-supplied constraint), then set the flag to false
on every match through the store's updateMany, reporting the modified
count. -/
def restore (coll : List Doc) (criteria : Criteria) : List Doc × Except K2Error Nat :=
  let criteria := setKey criteria "_deleted" (CVal.eqv (Value.bool true))
  match updateMany coll criteria (UpdateOp.set [("_deleted", Value.bool false)]) with
  | Except.ok r => (r.1, Except.ok r.2)
  | Except.error _ =>
    (coll,
     Except.error ⟨ServiceError.SYSTEM_ERROR, "Error restoring a deleted item", "sys_mdb_pres"⟩)

/-- Aggregation pipeline stages: a match stage carrying a criteria
object, skip and limit stages, and an opaque constructor for every other
stage kind (group, project, ...), whose content no verified property
inspects. -/
inductive Stage where
  | matchS : Criteria → Stage
  | skipS : Int → Stage
  | limitS : Int → Stage
  | otherS : String → Stage
  deriving DecidableEq, Repr

/-- The leading-match merge of K2DB.aggregate: when the first stage is a
match stage, assign the not-equal-true deleted constraint into its
criteria; otherwise unshift a fresh match stage carrying only that
constraint. -/
def mergeDeletedIntoHead (p : List Stage) : List Stage :=
  match p with
  | Stage.matchS m :: rest =>
    Stage.matchS (setKey m "_deleted" (CVal.ne (Value.bool true))) :: rest
  | _ => Stage.matchS [("_deleted", CVal.ne (Value.bool true))] :: p

/-- Pipeline shaping of K2DB.aggregate on a non-empty pipeline: merge the
deleted exclusion into the head, then push a skip stage when skip is
positive and a limit stage when limit is positive.  All three steps
mutate the caller's pipeline array. -/
def aggregateShaped (criteria : List Stage) (skip limit : Int) : List Stage :=
  let c := mergeDeletedIntoHead criteria
  let c := if skip > 0 then c ++ [Stage.skipS skip] else c
  if limit > 0 then c ++ [Stage.limitS limit] else c

/-- Embeds K2DB.sanitiseCriteria on one entry of a match stage: only a
string value under the key named exists-operator is rewritten to the
boolean comparison with the word true; every non-string constraint comes
back unchanged from the recursion. -/
def sanitiseEntry (kv : String × CVal) : String × CVal :=
  match kv with
  | ("$exists", CVal.eqv (Value.str s)) => ("$exists", CVal.eqv (Value.bool (s == "true")))
  | other => other

/-- Sanitisation as applied per stage: match stages have each entry
sanitised (mutating the stage object the caller's array still holds);
other stages pass through. -/
def sanitiseStage : Stage → Stage
  | Stage.matchS m => Stage.matchS (m.map sanitiseEntry)
  | s => s

/-- Embeds K2DB.aggregate up to the store call: an empty pipeline raises
before anything reaches the store; otherwise the shaped, sanitised
pipeline is sent.  The first component is the outcome visible to the
caller before store execution; the second lists every pipeline handed to
the store during the call, so that nothing-was-sent is statable. -/
def aggregate (criteria : List Stage) (skip limit : Int) :
    Except K2Error (List Stage) × List (List Stage) :=
  if criteria = [] then
    (Except.error
       ⟨ServiceError.SYSTEM_ERROR, "Aggregation criteria cannot be empty", "sys_mdb_ag_empty"⟩,
     [])
  else
    let sent := (aggregateShaped criteria skip limit).map sanitiseStage
    (Except.ok sent, [sent])

/-- State of the caller's pipeline array after K2DB.aggregate returns: an
empty pipeline is untouched (the error fires first); otherwise the
caller's array holds the shaped stages, with match stages sanitised in
place through shared references. -/
def aggregatePipelineAfter (criteria : List Stage) (skip limit : Int) : List Stage :=
  if criteria = [] then criteria
  else (aggregateShaped criteria skip limit).map sanitiseStage

end K2DB

theorem lookupKey_cons_eq {α : Type} (kv : String × α) (rest : List (String × α))
    (k : String) (h : kv.1 = k) : lookupKey (kv :: rest) k = some kv.2 := by
  simp [lookupKey, h]

theorem lookupKey_cons_ne {α : Type} (kv : String × α) (rest : List (String × α))
    (k : String) (h : kv.1 ≠ k) : lookupKey (kv :: rest) k = lookupKey rest k := by
  simp [lookupKey, h]

theorem setKey_cons_eq {α : Type} (kv : String × α) (rest : List (String × α))
    (k : String) (v : α) (h : kv.1 = k) : setKey (kv :: rest) k v = (k, v) :: rest := by
  simp [setKey, h]

theorem setKey_cons_ne {α : Type} (kv : String × α) (rest : List (String × α))
    (k : String) (v : α) (h : kv.1 ≠ k) :
    setKey (kv :: rest) k v = kv :: setKey rest k v := by
  simp [setKey, h]

theorem keysOf_nil {α : Type} : keysOf ([] : List (String × α)) = [] := rfl

theorem keysOf_cons {α : Type} (kv : String × α) (l : List (String × α)) :
    keysOf (kv :: l) = kv.1 :: keysOf l := rfl

theorem lookupKey_setKey_self {α : Type} (l : List (String × α)) (k : String) (v : α) :
    lookupKey (setKey l k v) k = some v := by
  induction l with
  | nil => simp [setKey, lookupKey]
  | cons kv rest ih =>
    by_cases h : kv.1 = k
    · rw [setKey_cons_eq kv rest k v h, lookupKey_cons_eq _ _ _ rfl]
    · rw [setKey_cons_ne kv rest k v h, lookupKey_cons_ne _ _ _ h, ih]

theorem lookupKey_setKey_other {α : Type} (l : List (String × α)) (k k' : String) (v : α)
    (h : k' ≠ k) : lookupKey (setKey l k v) k' = lookupKey l k' := by
  have hne : k ≠ k' := fun hh => h hh.symm
  induction l with
  | nil => simp [setKey, lookupKey, hne]
  | cons kv rest ih =>
    by_cases hk : kv.1 = k
    · rw [setKey_cons_eq kv rest k v hk, lookupKey_cons_ne _ _ _ hne,
        lookupKey_cons_ne kv rest k' (hk ▸ hne)]
    · by_cases hk' : kv.1 = k'
      · rw [setKey_cons_ne kv rest k v hk, lookupKey_cons_eq _ _ _ hk',
          lookupKey_cons_eq kv rest k' hk']
      · rw [setKey_cons_ne kv rest k v hk, lookupKey_cons_ne _ _ _ hk',
          lookupKey_cons_ne kv rest k' hk', ih]

theorem mem_keysOf_setKey {α : Type} (l : List (String × α)) (k k' : String) (v : α) :
    k' ∈ keysOf (setKey l k v) ↔ k' ∈ keysOf l ∨ k' = k := by
  induction l with
  | nil => simp [setKey, keysOf]
  | cons kv rest ih =>
    by_cases h : kv.1 = k
    · rw [setKey_cons_eq kv rest k v h, keysOf_cons, keysOf_cons]
      subst h
      simp only [List.mem_cons]
      tauto
    · rw [setKey_cons_ne kv rest k v h, keysOf_cons, keysOf_cons]
      simp only [List.mem_cons]
      rw [ih]
      tauto

theorem keysOf_setKey_of_mem {α : Type} (l : List (String × α)) (k : String) (v : α)
    (h : k ∈ keysOf l) : keysOf (setKey l k v) = keysOf l := by
  induction l with
  | nil => simp [keysOf] at h
  | cons kv rest ih =>
    by_cases hk : kv.1 = k
    · rw [setKey_cons_eq kv rest k v hk, keysOf_cons, keysOf_cons, hk]
    · rw [keysOf_cons, List.mem_cons] at h
      rcases h with h | h
      · exact absurd h.symm hk
      · rw [setKey_cons_ne kv rest k v hk, keysOf_cons, keysOf_cons, ih h]

theorem keysOf_setKey_of_not_mem {α : Type} (l : List (String × α)) (k : String) (v : α)
    (h : k ∉ keysOf l) : keysOf (setKey l k v) = keysOf l ++ [k] := by
  induction l with
  | nil => simp [setKey, keysOf]
  | cons kv rest ih =>
    rw [keysOf_cons, List.mem_cons] at h
    push_neg at h
    have hk : kv.1 ≠ k := fun hh => h.1 hh.symm
    rw [setKey_cons_ne kv rest k v hk, keysOf_cons, keysOf_cons, ih h.2, List.cons_append]

theorem nodup_keysOf_setKey {α : Type} (l : List (String × α)) (k : String) (v : α)
    (h : (keysOf l).Nodup) : (keysOf (setKey l k v)).Nodup := by
  by_cases hm : k ∈ keysOf l
  · rw [keysOf_setKey_of_mem l k v hm]; exact h
  · rw [keysOf_setKey_of_not_mem l k v hm]
    simp [List.nodup_append, h, hm]

theorem spread_cons {α : Type} (a : List (String × α)) (kv : String × α)
    (b : List (String × α)) :
    spread a (kv :: b) = spread (setKey a kv.1 kv.2) b := rfl

theorem lookupKey_spread_of_not_mem {α : Type} (a b : List (String × α)) (k : String)
    (h : k ∉ keysOf b) : lookupKey (spread a b) k = lookupKey a k := by
  induction b generalizing a with
  | nil => rfl
  | cons kv rest ih =>
    rw [keysOf_cons, List.mem_cons] at h
    push_neg at h
    rw [spread_cons, ih _ h.2, lookupKey_setKey_other _ _ _ _ h.1]

theorem lookupKey_spread_of_mem {α : Type} (a b : List (String × α)) (k : String)
    (hnd : (keysOf b).Nodup) (h : k ∈ keysOf b) :
    lookupKey (spread a b) k = lookupKey b k := by
  induction b generalizing a with
  | nil => simp [keysOf] at h
  | cons kv rest ih =>
    rw [keysOf_cons, List.mem_cons] at h
    rw [keysOf_cons, List.nodup_cons] at hnd
    rw [spread_cons]
    by_cases hk : kv.1 = k
    · subst hk
      rw [lookupKey_spread_of_not_mem _ _ _ hnd.1, lookupKey_setKey_self,
        lookupKey_cons_eq kv rest kv.1 rfl]
    · rcases h with h | h
      · exact absurd h.symm hk
      · rw [ih _ hnd.2 h, lookupKey_cons_ne kv rest k hk]

theorem setKey_of_not_mem {α : Type} (l : List (String × α)) (k : String) (v : α)
    (h : k ∉ keysOf l) : setKey l k v = l ++ [(k, v)] := by
  induction l with
  | nil => rfl
  | cons kv rest ih =>
    rw [keysOf_cons, List.mem_cons] at h
    push_neg at h
    rw [setKey_cons_ne kv rest k v fun hh => h.1 hh.symm, ih h.2, List.cons_append]

theorem matchesDoc_append (c1 c2 : Criteria) (d : Doc) :
    matchesDoc (c1 ++ c2) d = (matchesDoc c1 d && matchesDoc c2 d) := by
  simp [matchesDoc, List.all_append]

theorem matchesDoc_singleton (k : String) (cv : CVal) (d : Doc) :
    matchesDoc [(k, cv)] d = matchCVal (lookupKey d k) cv := by
  simp [matchesDoc]

theorem forall₂_map_self {β : Type} {r : β → β → Prop} (f : β → β) (l : List β)
    (h : ∀ d ∈ l, r (f d) d) : List.Forall₂ r (l.map f) l := by
  induction l with
  | nil => exact List.Forall₂.nil
  | cons x xs ih =>
    exact List.Forall₂.cons (h x (List.mem_cons_self x xs))
      (ih fun d hd => h d (List.mem_cons_of_mem x hd))

theorem sysEq_applySet (values : Doc) (d : Doc)
    (h1 : "_uuid" ∉ keysOf values) (h2 : "_owner" ∉ keysOf values)
    (h3 : "_created" ∉ keysOf values) : sysEq (applySet values d) d :=
  ⟨lookupKey_spread_of_not_mem d values _ h1,
   lookupKey_spread_of_not_mem d values _ h2,
   lookupKey_spread_of_not_mem d values _ h3⟩

theorem not_mem_keysOf_setKey {α : Type} (l : List (String × α)) (k k' : String) (v : α)
    (hk : k' ∉ keysOf l) (hne : k' ≠ k) : k' ∉ keysOf (setKey l k v) := fun hmem => by
  rcases (mem_keysOf_setKey l k k' v).1 hmem with h | h
  exacts [hk h, hne h]

/-- The collection state after a patch-mode updateAll: every matching
document receives the stamped values by assignment, the rest are
untouched. -/
theorem updateAll_patch_fst (coll : List Doc) (criteria : Criteria) (values : Doc)
    (now : Int) :
    (K2DB.updateAll coll criteria values false now).1
      = coll.map fun d =>
          if matchesDoc
              (if "_deleted" ∈ keysOf criteria then criteria
               else setKey criteria "_deleted" (CVal.ne (Value.bool true))) d
          then applySet (setKey values "_updated" (Value.num now)) d else d := rfl

/-- A replace-mode updateAll leaves the collection unchanged: the store
rejects the operator-free replacement document. -/
theorem updateAll_replace_fst (coll : List Doc) (criteria : Criteria) (values : Doc)
    (now : Int) : (K2DB.updateAll coll criteria values true now).1 = coll := rfl

/-- The collection state after update equals the state after its inner
updateAll on the identity criteria with the stamped data. -/
theorem update_fst (coll : List Doc) (id : String) (data : Doc) (replace : Bool)
    (now : Int) :
    (K2DB.update coll id data replace now).1
      = (K2DB.updateAll coll [("_uuid", CVal.eqv (Value.str id))]
          (setKey data "_updated" (Value.num now)) replace now).1 := by
  cases h : (K2DB.updateAll coll [("_uuid", CVal.eqv (Value.str id))]
      (setKey data "_updated" (Value.num now)) replace now).2 with
  | ok n =>
    by_cases h1 : n = 1
    · simp [K2DB.update, h, h1]
    · by_cases h0 : n = 0 <;> simp [K2DB.update, h, h1, h0]
  | error e => simp [K2DB.update, h]

/-- The collection state after deleteAll equals the state after its inner
patch-mode updateAll with the overwritten criteria. -/
theorem deleteAll_fst (coll : List Doc) (criteria : Criteria) (now : Int) :
    (K2DB.deleteAll coll criteria now).1
      = (K2DB.updateAll coll (setKey criteria "_deleted" (CVal.ne (Value.bool true)))
          [("_deleted", Value.bool true)] false now).1 := by
  cases h : (K2DB.updateAll coll (setKey criteria "_deleted" (CVal.ne (Value.bool true)))
      [("_deleted", Value.bool true)] false now).2 with
  | ok n => simp [K2DB.deleteAll, h]
  | error e => simp [K2DB.deleteAll, h]

/-- The collection state after delete equals the state after its inner
deleteAll on the identity criteria. -/
theorem delete_fst (coll : List Doc) (id : String) (now : Int) :
    (K2DB.delete coll id now).1
      = (K2DB.deleteAll coll [("_uuid", CVal.eqv (Value.str id))] now).1 := by
  cases h : (K2DB.deleteAll coll [("_uuid", CVal.eqv (Value.str id))] now).2 with
  | ok n =>
    by_cases h1 : n = 1
    · simp [K2DB.delete, h, h1]
    · by_cases h0 : n = 0 <;> simp [K2DB.delete, h, h1, h0]
  | error e => simp [K2DB.delete, h]

/-- Patch-mode updateAll preserves the immutable envelope fields of every
stored document whenever the values object names none of them. -/
theorem updateAll_patch_preserves (coll : List Doc) (criteria : Criteria) (values : Doc)
    (now : Int)
    (h1 : "_uuid" ∉ keysOf values) (h2 : "_owner" ∉ keysOf values)
    (h3 : "_created" ∉ keysOf values) :
    List.Forall₂ sysEq (K2DB.updateAll coll criteria values false now).1 coll := by
  rw [updateAll_patch_fst]
  refine forall₂_map_self _ _ fun d hd => ?_
  by_cases hm :
      matchesDoc
        (if "_deleted" ∈ keysOf criteria then criteria
         else setKey criteria "_deleted" (CVal.ne (Value.bool true))) d = true
  · rw [if_pos hm]
    exact sysEq_applySet _ d
      (not_mem_keysOf_setKey values "_updated" "_uuid" _ h1 (by decide))
      (not_mem_keysOf_setKey values "_updated" "_owner" _ h2 (by decide))
      (not_mem_keysOf_setKey values "_updated" "_created" _ h3 (by decide))
  · rw [if_neg hm]
    exact ⟨rfl, rfl, rfl⟩

/-- Every document present after a patch-mode updateAll is either a
document of the old collection, untouched, or carries the call-time clock
in its updated-at field. -/
theorem updateAll_patch_stamps (coll : List Doc) (criteria : Criteria) (values : Doc)
    (now : Int) (hnd : (keysOf values).Nodup) :
    ∀ d' ∈ (K2DB.updateAll coll criteria values false now).1,
      d' ∈ coll ∨ lookupKey d' "_updated" = some (Value.num now) := by
  rw [updateAll_patch_fst]
  intro d' hd'
  rcases List.mem_map.1 hd' with ⟨d, hd, rfl⟩
  by_cases hm :
      matchesDoc
        (if "_deleted" ∈ keysOf criteria then criteria
         else setKey criteria "_deleted" (CVal.ne (Value.bool true))) d = true
  · right
    rw [if_pos hm]
    have hmem : "_updated" ∈ keysOf (setKey values "_updated" (Value.num now)) :=
      (mem_keysOf_setKey values "_updated" "_updated" (Value.num now)).2 (Or.inr rfl)
    have hnd2 : (keysOf (setKey values "_updated" (Value.num now))).Nodup :=
      nodup_keysOf_setKey values "_updated" (Value.num now) hnd
    calc lookupKey (applySet (setKey values "_updated" (Value.num now)) d) "_updated"
        = lookupKey (setKey values "_updated" (Value.num now)) "_updated" :=
          lookupKey_spread_of_mem d _ _ hnd2 hmem
      _ = some (Value.num now) := lookupKey_setKey_self values "_updated" (Value.num now)
  · left
    rw [if_neg hm]
    exact hd

theorem map_id_of_eq {β : Type} (l : List β) (f : β → β) (h : ∀ a ∈ l, f a = a) :
    l.map f = l := by
  induction l with
  | nil => rfl
  | cons x xs ih =>
    rw [List.map_cons, h x (List.mem_cons_self x xs),
      ih fun a ha => h a (List.mem_cons_of_mem x ha)]

theorem filter_nil_of_false {β : Type} (l : List β) (p : β → Bool)
    (h : ∀ a ∈ l, p a = false) : l.filter p = [] := by
  induction l with
  | nil => rfl
  | cons x xs ih =>
    rw [List.filter_cons, h x (List.mem_cons_self x xs)]
    exact ih fun a ha => h a (List.mem_cons_of_mem x ha)

/-- The head of the merged aggregation pipeline is always a match stage
carrying the not-equal-true deleted constraint. -/
theorem mergeDeletedIntoHead_head (p : List K2DB.Stage) :
    ∃ m t, K2DB.mergeDeletedIntoHead p = K2DB.Stage.matchS m :: t
      ∧ lookupKey m "_deleted" = some (CVal.ne (Value.bool true)) := by
  rcases p with _ | ⟨s, rest⟩
  · exact ⟨_, _, rfl, rfl⟩
  · rcases s with m | n | n | str
    · exact ⟨_, _, rfl, lookupKey_setKey_self m "_deleted" (CVal.ne (Value.bool true))⟩
    · exact ⟨_, _, rfl, rfl⟩
    · exact ⟨_, _, rfl, rfl⟩
    · exact ⟨_, _, rfl, rfl⟩

/-- Claim C1 counterexample: a patch (replace=false) whose values object
itself carries a _uuid key rewrites the stored identity field, so
identity is not preserved across updateAll for all caller-supplied
values. -/
theorem updateAll_changes_uuid_counterexample :
    K2DB.updateAll
        [[("_uuid", Value.str "u"), ("_owner", Value.str "o"), ("_created", Value.num 1)]]
        [("_uuid", CVal.eqv (Value.str "u"))] [("_uuid", Value.str "evil")] false 5
      = ([[("_uuid", Value.str "evil"), ("_owner", Value.str "o"),
           ("_created", Value.num 1), ("_updated", Value.num 5)]], Except.ok 1)
      ∧ Value.str "evil" ≠ Value.str "u" := ⟨rfl, by decide⟩

/-- Claim C2: at the failing input (an existing document with extra field
c, replaced by data lacking c), the replace path hands the raw values
object to the store's updateMany without reading the existing document;
the store rejects the operator-free update document, the call fails with
SYSTEM_ERROR code sys_mdb_update1, and the stored document is unchanged —
instead of the claimed caller-data-plus-preserved-system-fields result
that the repository's own tests assert. -/
theorem update_replace_failing_input :
    K2DB.update
        [[("_uuid", Value.str "uuid-1"), ("_owner", Value.str "user1"),
          ("name", Value.str "Original Document"), ("value", Value.num 10),
          ("c", Value.str "valueC"),
          ("_created", Value.num 1620000000000), ("_updated", Value.num 1620000000000)]]
        "uuid-1" [("name", Value.str "New Replaced Document"), ("value", Value.num 200)]
        true 1700000000000
      = ([[("_uuid", Value.str "uuid-1"), ("_owner", Value.str "user1"),
           ("name", Value.str "Original Document"), ("value", Value.num 10),
           ("c", Value.str "valueC"),
           ("_created", Value.num 1620000000000), ("_updated", Value.num 1620000000000)]],
         Except.error
           ⟨ServiceError.SYSTEM_ERROR, "Error updating collection", "sys_mdb_update1"⟩) := rfl

/-- Claim C3 counterexample: a caller filter explicitly requesting
deleted documents is overridden by the default mode — the shaped criteria
constrain the flag to not-true instead, and a deleted document matching
the caller's filter is not returned. -/
theorem find_overrides_deleted_counterexample :
    K2DB.findCriteria (some [("_deleted", CVal.eqv (Value.bool true))]) ⟨false, false⟩
      = [("_deleted", CVal.ne (Value.bool true))]
    ∧ K2DB.find [[("_deleted", Value.bool true)]]
        (some [("_deleted", CVal.eqv (Value.bool true))]) ⟨false, false⟩ = [] := ⟨rfl, rfl⟩

/-- Claim C4 counterexample: get returns a soft-deleted document, because
its criteria constrain only the identity and never the deleted flag,
refuting the claim that a soft-deleted document is never returned. -/
theorem get_returns_deleted_counterexample :
    K2DB.get [[("_uuid", Value.str "g1"), ("_deleted", Value.bool true),
               ("v", Value.num 3)]] "g1"
      = Except.ok [("_uuid", Value.str "g1"), ("_deleted", Value.bool true),
                   ("v", Value.num 3)] := rfl

/-- Claim C5: at the failing input (no document with the identity),
delete constructs its NOT_FOUND error but the surrounding catch-all
re-wraps it, so the caller receives the SYSTEM_ERROR kind with code
sys_mdb_remove_upd rather than the NotFound kind the claim and the spec
promise. -/
theorem delete_wraps_notfound_failing_input :
    K2DB.delete [] "missing" 5
      = ([], Except.error
           ⟨ServiceError.SYSTEM_ERROR, "Error removing object from collection",
             "sys_mdb_remove_upd"⟩)
      ∧ ServiceError.SYSTEM_ERROR ≠ ServiceError.NOT_FOUND := ⟨rfl, by decide⟩

/-- Claim C6 counterexample: aggregate on the empty pipeline fails with
the SYSTEM_ERROR kind, not with BAD_REQUEST, the kind the source uses for
malformed caller input and the spec names InvalidArgument. -/
theorem aggregate_empty_kind_counterexample :
    K2DB.aggregate [] 0 100
      = (Except.error
           ⟨ServiceError.SYSTEM_ERROR, "Aggregation criteria cannot be empty",
             "sys_mdb_ag_empty"⟩, [])
      ∧ ServiceError.SYSTEM_ERROR ≠ ServiceError.BAD_REQUEST := ⟨rfl, by decide⟩

/-- Claim C6 (amended): for every skip and limit, aggregate on the empty
pipeline fails with the SystemError kind carrying code sys_mdb_ag_empty,
and no pipeline at all is sent to the store. -/
theorem aggregate_empty_fails_nothing_sent (skip limit : Int) :
    K2DB.aggregate [] skip limit
      = (Except.error
           ⟨ServiceError.SYSTEM_ERROR, "Aggregation criteria cannot be empty",
             "sys_mdb_ag_empty"⟩, []) := rfl

/-- Claim C7 counterexample: create spreads the caller data first and
re-stamps only identity, owner and the two timestamps, so caller data
carrying a deleted flag produces a newborn document that carries the
deleted flag, refuting the claim's no-deleted-flag clause. -/
theorem create_keeps_caller_deleted_counterexample :
    K2DB.create [] "alice" [("_deleted", Value.bool true)] 7 "id-1"
      = ([[("_deleted", Value.bool true), ("_created", Value.num 7),
           ("_updated", Value.num 7), ("_owner", Value.str "alice"),
           ("_uuid", Value.str "id-1")]], Except.ok "id-1")
      ∧ lookupKey [("_deleted", Value.bool true), ("_created", Value.num 7),
           ("_updated", Value.num 7), ("_owner", Value.str "alice"),
           ("_uuid", Value.str "id-1")] "_deleted" = some (Value.bool true) := ⟨rfl, rfl⟩

/-- Claim C8 counterexample: the criteria constraining the deleted flag
to not-true match only live documents, yet restore overwrites that very
constraint with flag-equals-true, and on a collection holding one deleted
document it reports one modification, not the claimed zero. -/
theorem restore_modifies_live_criteria_counterexample :
    K2DB.restore [[("_deleted", Value.bool true)]]
        [("_deleted", CVal.ne (Value.bool true))]
      = ([[("_deleted", Value.bool false)]], Except.ok 1)
      ∧ (1 : Nat) ≠ 0 := ⟨rfl, by decide⟩

/-- Claim C10 counterexample: with includeDeleted set, find leaves the
caller's non-null filter object untouched, so the filter does not differ
after the call, refuting the claim for every call. -/
theorem find_filter_unchanged_counterexample :
    K2DB.findFilterAfter (some [("a", CVal.eqv (Value.num 1))]) ⟨true, false⟩
      = some [("a", CVal.eqv (Value.num 1))] := rfl

/-- Claim C1 (amended): identity, owner and created-at are unchanged by
patch-mode updateAll and update whenever the caller values name none of
those keys (values that do name them overwrite them — see the
counterexample), by deleteAll and delete always, and by replace-mode
updateAll trivially, since the store rejects its operator-free
replacement and the collection is left whole. -/
theorem system_fields_preserved (coll : List Doc) (criteria : Criteria) (values : Doc)
    (uuid : String) (now : Int)
    (h1 : "_uuid" ∉ keysOf values) (h2 : "_owner" ∉ keysOf values)
    (h3 : "_created" ∉ keysOf values) :
    List.Forall₂ sysEq (K2DB.updateAll coll criteria values false now).1 coll
    ∧ (K2DB.updateAll coll criteria values true now).1 = coll
    ∧ List.Forall₂ sysEq (K2DB.update coll uuid values false now).1 coll
    ∧ List.Forall₂ sysEq (K2DB.deleteAll coll criteria now).1 coll
    ∧ List.Forall₂ sysEq (K2DB.delete coll uuid now).1 coll := by
  refine ⟨updateAll_patch_preserves coll criteria values now h1 h2 h3,
    updateAll_replace_fst coll criteria values now, ?_, ?_, ?_⟩
  · rw [update_fst]
    exact updateAll_patch_preserves _ _ _ _
      (not_mem_keysOf_setKey values "_updated" "_uuid" _ h1 (by decide))
      (not_mem_keysOf_setKey values "_updated" "_owner" _ h2 (by decide))
      (not_mem_keysOf_setKey values "_updated" "_created" _ h3 (by decide))
  · rw [deleteAll_fst]
    exact updateAll_patch_preserves _ _ _ _ (by decide) (by decide) (by decide)
  · rw [delete_fst, deleteAll_fst]
    exact updateAll_patch_preserves _ _ _ _ (by decide) (by decide) (by decide)

/-- Witness for the amended claim C1 at a concrete collection, criteria,
values, identity and clock. -/
theorem system_fields_preserved_witness :
    List.Forall₂ sysEq
        (K2DB.updateAll [[("_uuid", Value.str "w")]] [] [("a", Value.num 2)] false 9).1
        [[("_uuid", Value.str "w")]]
    ∧ (K2DB.updateAll [[("_uuid", Value.str "w")]] [] [("a", Value.num 2)] true 9).1
        = [[("_uuid", Value.str "w")]]
    ∧ List.Forall₂ sysEq
        (K2DB.update [[("_uuid", Value.str "w")]] "w" [("a", Value.num 2)] false 9).1
        [[("_uuid", Value.str "w")]]
    ∧ List.Forall₂ sysEq (K2DB.deleteAll [[("_uuid", Value.str "w")]] [] 9).1
        [[("_uuid", Value.str "w")]]
    ∧ List.Forall₂ sysEq (K2DB.delete [[("_uuid", Value.str "w")]] "w" 9).1
        [[("_uuid", Value.str "w")]] :=
  system_fields_preserved [[("_uuid", Value.str "w")]] [] [("a", Value.num 2)] "w" 9
    (by decide) (by decide) (by decide)

/-- Claim C9: updateAll unconditionally overwrites any caller-supplied
updated-at value with the call-time clock before the write, and so do
update, deleteAll and delete, which go through it: a document present
after any of these calls is either untouched or stamped with the clock,
never with a caller-chosen updated-at. -/
theorem updated_stamped (coll : List Doc) (criteria : Criteria) (values : Doc)
    (uuid : String) (now : Int) (hnd : (keysOf values).Nodup) :
    (∀ d' ∈ (K2DB.updateAll coll criteria values false now).1,
        d' ∈ coll ∨ lookupKey d' "_updated" = some (Value.num now))
    ∧ (∀ d' ∈ (K2DB.update coll uuid values false now).1,
        d' ∈ coll ∨ lookupKey d' "_updated" = some (Value.num now))
    ∧ (∀ d' ∈ (K2DB.deleteAll coll criteria now).1,
        d' ∈ coll ∨ lookupKey d' "_updated" = some (Value.num now))
    ∧ (∀ d' ∈ (K2DB.delete coll uuid now).1,
        d' ∈ coll ∨ lookupKey d' "_updated" = some (Value.num now)) := by
  refine ⟨updateAll_patch_stamps coll criteria values now hnd, ?_, ?_, ?_⟩
  · rw [update_fst]
    exact updateAll_patch_stamps _ _ _ _
      (nodup_keysOf_setKey values "_updated" (Value.num now) hnd)
  · rw [deleteAll_fst]
    exact updateAll_patch_stamps _ _ _ _ (by decide)
  · rw [delete_fst, deleteAll_fst]
    exact updateAll_patch_stamps _ _ _ _ (by decide)

/-- Witness for claim C9: a caller-supplied updated-at of 777 is
overwritten with the clock value 9 on the patched document. -/
theorem updated_stamped_witness :
    [("_uuid", Value.str "q"), ("_updated", Value.num 9)]
        ∈ [[("_uuid", Value.str "q"), ("_updated", Value.num 777)]]
    ∨ lookupKey [("_uuid", Value.str "q"), ("_updated", Value.num 9)] "_updated"
        = some (Value.num 9) :=
  (updated_stamped [[("_uuid", Value.str "q"), ("_updated", Value.num 777)]] []
      [("_updated", Value.num 777)] "q" 9 (by decide)).1
    [("_uuid", Value.str "q"), ("_updated", Value.num 9)] (by decide)

/-- Claim C8 (amended): when the criteria do not themselves name the
deleted flag and match only live documents, restore reports zero
modifications and does not fail.  (Criteria that do name the flag are
overwritten with flag-equals-true — see the counterexample.) -/
theorem restore_noop_on_live (coll : List Doc) (criteria : Criteria)
    (hkey : "_deleted" ∉ keysOf criteria)
    (hlive : ∀ d ∈ coll, matchesDoc criteria d = true →
      lookupKey d "_deleted" ≠ some (Value.bool true)) :
    K2DB.restore coll criteria = (coll, Except.ok 0) := by
  have hcrit : setKey criteria "_deleted" (CVal.eqv (Value.bool true))
      = criteria ++ [("_deleted", CVal.eqv (Value.bool true))] :=
    setKey_of_not_mem criteria "_deleted" _ hkey
  have hmatch : ∀ d ∈ coll,
      matchesDoc (setKey criteria "_deleted" (CVal.eqv (Value.bool true))) d = false := by
    intro d hd
    rw [hcrit, matchesDoc_append]
    by_cases hm : matchesDoc criteria d = true
    · have hne := hlive d hd hm
      have hcv : matchCVal (lookupKey d "_deleted") (CVal.eqv (Value.bool true)) = false := by
        simp [matchCVal, hne]
      simp [hm, matchesDoc_singleton, hcv]
    · simp [Bool.eq_false_iff.2 hm]
  have hres : K2DB.restore coll criteria
      = ((coll.map fun d =>
            if matchesDoc (setKey criteria "_deleted" (CVal.eqv (Value.bool true))) d
            then applySet [("_deleted", Value.bool false)] d else d),
         Except.ok ((coll.filter fun d =>
            matchesDoc (setKey criteria "_deleted" (CVal.eqv (Value.bool true))) d
              && (applySet [("_deleted", Value.bool false)] d ≠ d : Bool)).length)) := rfl
  rw [hres]
  refine Prod.ext ?_ ?_
  · exact map_id_of_eq coll _ fun d hd => if_neg (by simp [hmatch d hd])
  · have hfil : (coll.filter fun d =>
        matchesDoc (setKey criteria "_deleted" (CVal.eqv (Value.bool true))) d
          && (applySet [("_deleted", Value.bool false)] d ≠ d : Bool)) = [] :=
      filter_nil_of_false coll _ fun d hd => by simp [hmatch d hd]
    rw [hfil]
    rfl

/-- Witness for the amended claim C8 at a concrete live document and
deleted-flag-free criteria. -/
theorem restore_noop_on_live_witness :
    K2DB.restore [[("_uuid", Value.str "a")]] [("_uuid", CVal.eqv (Value.str "a"))]
      = ([[("_uuid", Value.str "a")]], Except.ok 0) :=
  restore_noop_on_live [[("_uuid", Value.str "a")]] [("_uuid", CVal.eqv (Value.str "a"))]
    (by decide) (by decide)

/-- Claim C3 (amended): find applies exactly one constraint according to
its options, by assignment into the caller's filter: under includeDeleted
the filter is untouched (only then does a caller-written deleted
constraint survive), under the deleted option the flag is overwritten
with equals-true, and by default it is overwritten with not-equal-true;
in the default mode on a filter without the flag, a document matches the
shaped criteria exactly when it matches the filter and is not
soft-deleted. -/
theorem findCriteria_modes (f : Criteria) (p : K2DB.FindParams) :
    (p.includeDeleted = true → K2DB.findCriteria (some f) p = f)
    ∧ (p.includeDeleted = false → p.deleted = true →
        K2DB.findCriteria (some f) p = setKey f "_deleted" (CVal.eqv (Value.bool true)))
    ∧ (p.includeDeleted = false → p.deleted = false →
        K2DB.findCriteria (some f) p = setKey f "_deleted" (CVal.ne (Value.bool true))
        ∧ ("_deleted" ∉ keysOf f → ∀ d : Doc,
            matchesDoc (K2DB.findCriteria (some f) p) d
              = (matchesDoc f d
                  && !(lookupKey d "_deleted" == some (Value.bool true))))) := by
  refine ⟨fun hi => ?_, fun hi hd => ?_, fun hi hd => ⟨?_, fun hkey d => ?_⟩⟩
  · simp [K2DB.findCriteria, hi]
  · simp [K2DB.findCriteria, hi, hd]
  · simp [K2DB.findCriteria, hi, hd]
  · rw [show K2DB.findCriteria (some f) p
        = setKey f "_deleted" (CVal.ne (Value.bool true)) by
          simp [K2DB.findCriteria, hi, hd],
      setKey_of_not_mem f _ _ hkey, matchesDoc_append, matchesDoc_singleton]
    simp [matchCVal]

/-- Witness for the amended claim C3: the default mode appends the
not-equal-true deleted constraint to a flag-free filter. -/
theorem findCriteria_modes_witness :
    K2DB.findCriteria (some [("x", CVal.eqv (Value.num 1))]) ⟨false, false⟩
      = [("x", CVal.eqv (Value.num 1)), ("_deleted", CVal.ne (Value.bool true))] := by
  have h := ((findCriteria_modes [("x", CVal.eqv (Value.num 1))] ⟨false, false⟩).2.2
    rfl rfl).1
  simpa using h

/-- Claim C4 (amended): get matches on the identity alone — whenever any
document, soft-deleted or live, carries the identity, get succeeds — and
when no document carries it, get fails with the SYSTEM_ERROR kind and
code sys_mdb_get rather than returning nothing. -/
theorem get_ignores_deleted (coll : List Doc) (uuid : String) :
    ((∃ d ∈ coll, lookupKey d "_uuid" = some (Value.str uuid)) →
        isOk (K2DB.get coll uuid) = true)
    ∧ ((∀ d ∈ coll, lookupKey d "_uuid" ≠ some (Value.str uuid)) →
        K2DB.get coll uuid
          = Except.error ⟨ServiceError.SYSTEM_ERROR,
              "Error getting the document with provided identity", "sys_mdb_get"⟩) := by
  constructor
  · rintro ⟨d, hd, hu⟩
    cases hf : storeFindOne coll [("_uuid", CVal.eqv (Value.str uuid))] with
    | some d0 => simp [K2DB.get, K2DB.findOne, hf, isOk]
    | none =>
      exfalso
      unfold storeFindOne at hf
      have hall := List.find?_eq_none.1 hf d hd
      rw [matchesDoc_singleton] at hall
      exact hall (by simp [matchCVal, hu])
  · intro hall
    cases hf : storeFindOne coll [("_uuid", CVal.eqv (Value.str uuid))] with
    | none => simp [K2DB.get, K2DB.findOne, hf]
    | some d0 =>
      exfalso
      unfold storeFindOne at hf
      have hp := List.find?_some hf
      have hmem := List.mem_of_find?_eq_some hf
      rw [matchesDoc_singleton] at hp
      simp only [matchCVal, beq_iff_eq] at hp
      exact hall d0 hmem hp

/-- Witness for the amended claim C4: a collection whose only document
with the identity is soft-deleted still makes get succeed. -/
theorem get_ignores_deleted_witness :
    isOk (K2DB.get [[("_uuid", Value.str "u"), ("_deleted", Value.bool true)]] "u")
      = true :=
  (get_ignores_deleted [[("_uuid", Value.str "u"), ("_deleted", Value.bool true)]] "u").1
    ⟨[("_uuid", Value.str "u"), ("_deleted", Value.bool true)], by decide, by decide⟩

/-- Claim C7 (amended): create stores the caller data with identity,
owner, created-at and updated-at stamped over any caller-supplied
same-named fields, and every other field — the deleted flag included —
comes through exactly as the caller supplied it, so a newborn document
carries a deleted flag only when the caller data did. -/
theorem create_stamps_envelope (coll : List Doc) (owner : String) (data : Doc)
    (now : Int) (uuid : String) (howner : owner ≠ "")
    (hfresh : (coll.any fun d => lookupKey d "_uuid" == some (Value.str uuid)) = false) :
    K2DB.create coll owner data now uuid
      = (coll ++ [K2DB.createdDoc data owner now uuid], Except.ok uuid)
    ∧ lookupKey (K2DB.createdDoc data owner now uuid) "_uuid" = some (Value.str uuid)
    ∧ lookupKey (K2DB.createdDoc data owner now uuid) "_owner" = some (Value.str owner)
    ∧ lookupKey (K2DB.createdDoc data owner now uuid) "_created" = some (Value.num now)
    ∧ lookupKey (K2DB.createdDoc data owner now uuid) "_updated" = some (Value.num now)
    ∧ ∀ k, k ∉ (["_uuid", "_owner", "_created", "_updated"] : List String) →
        lookupKey (K2DB.createdDoc data owner now uuid) k = lookupKey data k := by
  have hkeys : keysOf
      [("_created", Value.num now), ("_updated", Value.num now),
       ("_owner", Value.str owner), ("_uuid", Value.str uuid)]
      = ["_created", "_updated", "_owner", "_uuid"] := rfl
  have hnd : (["_created", "_updated", "_owner", "_uuid"] : List String).Nodup := by
    decide
  refine ⟨?_, ?_, ?_, ?_, ?_, fun k hk => ?_⟩
  · simp [K2DB.create, howner, hfresh]
  · rw [K2DB.createdDoc,
      lookupKey_spread_of_mem data _ _ (by rw [hkeys]; exact hnd) (by rw [hkeys]; decide)]
    simp [lookupKey]
  · rw [K2DB.createdDoc,
      lookupKey_spread_of_mem data _ _ (by rw [hkeys]; exact hnd) (by rw [hkeys]; decide)]
    simp [lookupKey]
  · rw [K2DB.createdDoc,
      lookupKey_spread_of_mem data _ _ (by rw [hkeys]; exact hnd) (by rw [hkeys]; decide)]
    simp [lookupKey]
  · rw [K2DB.createdDoc,
      lookupKey_spread_of_mem data _ _ (by rw [hkeys]; exact hnd) (by rw [hkeys]; decide)]
    simp [lookupKey]
  · rw [K2DB.createdDoc]
    refine lookupKey_spread_of_not_mem data _ k ?_
    rw [hkeys]
    intro hmem
    apply hk
    simp only [List.mem_cons, List.not_mem_nil, or_false] at hmem ⊢
    tauto

/-- Witness for the amended claim C7 at a concrete owner, caller data,
clock and generated identity. -/
theorem create_stamps_envelope_witness :
    K2DB.create [] "bob" [("t", Value.num 3)] 11 "w-1"
      = ([K2DB.createdDoc [("t", Value.num 3)] "bob" 11 "w-1"], Except.ok "w-1") := by
  have h := (create_stamps_envelope [] "bob" [("t", Value.num 3)] 11 "w-1"
    (by decide) (by decide)).1
  simpa using h

/-- Claim C10 (amended): find writes the mode's soft-delete constraint
into the caller's non-null filter object by assignment except under
includeDeleted, which leaves the filter untouched; aggregate always
rewrites the caller's non-empty pipeline array to the shaped, sanitised
stages whose head is a match stage carrying the not-equal-true deleted
constraint. -/
theorem caller_args_mutated (f : Criteria) (p : K2DB.FindParams)
    (pipe : List K2DB.Stage) (skip limit : Int) (hpipe : pipe ≠ []) :
    (p.includeDeleted = false →
        K2DB.findFilterAfter (some f) p
          = some (setKey f "_deleted"
              (if p.deleted then CVal.eqv (Value.bool true)
               else CVal.ne (Value.bool true))))
    ∧ (p.includeDeleted = true → K2DB.findFilterAfter (some f) p = some f)
    ∧ K2DB.aggregatePipelineAfter pipe skip limit
        = (K2DB.aggregateShaped pipe skip limit).map K2DB.sanitiseStage
    ∧ ∃ m, (K2DB.aggregateShaped pipe skip limit).head?
          = some (K2DB.Stage.matchS m)
        ∧ lookupKey m "_deleted" = some (CVal.ne (Value.bool true)) := by
  refine ⟨fun hi => ?_, fun hi => ?_, ?_, ?_⟩
  · cases hd : p.deleted <;> simp [K2DB.findFilterAfter, K2DB.findCriteria, hi, hd]
  · simp [K2DB.findFilterAfter, K2DB.findCriteria, hi]
  · simp [K2DB.aggregatePipelineAfter, hpipe]
  · obtain ⟨m, t, hmerge, hm⟩ := mergeDeletedIntoHead_head pipe
    refine ⟨m, ?_, hm⟩
    unfold K2DB.aggregateShaped
    rw [hmerge]
    by_cases h1 : skip > 0 <;> by_cases h2 : limit > 0 <;>
      simp [h1, h2, List.cons_append]

/-- Witness for the amended claim C10: the deleted-equals-true mode
writes its constraint into a concrete caller filter. -/
theorem caller_args_mutated_witness :
    K2DB.findFilterAfter (some [("b", CVal.eqv (Value.num 2))]) ⟨false, true⟩
      = some [("b", CVal.eqv (Value.num 2)), ("_deleted", CVal.eqv (Value.bool true))] := by
  have h := (caller_args_mutated [("b", CVal.eqv (Value.num 2))] ⟨false, true⟩
    [K2DB.Stage.otherS "g"] 0 100 (by decide)).1 rfl
  simpa using h

end K2
